import Mathlib

/-!
# FMT Filament Management Tool — verification of the Identity & Location core

Shallow embedding of the identity-allocator, schema-migration and
location-tree code of `src/index.tsx` (the only source file of the
repository), together with proofs settling the frozen claims about it.

Modelling conventions, used throughout:

* JavaScript strings are Lean `String`s; operations that core Lean
  implements with string iterators (and which therefore do not reduce in
  the kernel) are re-implemented structurally over `String.data`, with a
  comment naming the JavaScript operation they translate.
* JavaScript numbers that the migration code only moves around are
  modelled as `ℚ`; the counter fields, which the code increments,
  compares and prints, are modelled as `Option ℕ`, where `none` stands
  for the JavaScript `undefined`/`NaN` family (both propagate through
  `++`, `Math.max` and `toString` the same way in the code under
  embedding).
* JavaScript objects used as string-keyed maps (`colorMap`,
  `typeCounters`) are association lists in insertion order, matching the
  enumeration order of JS objects; updating an existing key keeps its
  position, a new key is appended.
* `JSON.parse(JSON.stringify(x))` is a deep value copy.
-/

/-- JS number that may be `undefined`/`NaN`: `none` propagates through
arithmetic and prints as `"NaN"`, as the corresponding JS values do in the
expressions the source applies them to. -/
abbrev JsNat := Option ℕ

/-- `Math.max` on possibly-NaN values: NaN is absorbing. -/
def jsMax (a b : JsNat) : JsNat :=
  match a, b with
  | some x, some y => some (max x y)
  | _, _ => none

/-- Decimal digit character, as produced by `Number.prototype.toString`. -/
def decDigit (d : ℕ) : Char := Char.ofNat (48 + d)

/-- Decimal representation of a natural number (the characters of
`n.toString()` in JS), written with a fuel argument so that it is
structurally recursive and reduces in the kernel; `decRepr` supplies
enough fuel. -/
def decReprAux : ℕ → ℕ → List Char
  | 0, _ => []
  | fuel + 1, n =>
    if n < 10 then [decDigit n]
    else decReprAux fuel (n / 10) ++ [decDigit (n % 10)]

/-- The digit list of `n.toString()`. -/
def decRepr (n : ℕ) : List Char := decReprAux (n + 1) n

/-- `x.toString()` for a JS counter value: `NaN.toString()` is `"NaN"`. -/
def jsNatToString (x : JsNat) : String :=
  match x with
  | some n => String.mk (decRepr n)
  | none => "NaN"

/-- `s.padStart(n, c)`. -/
def padStart (s : String) (n : ℕ) (c : Char) : String :=
  String.mk (List.replicate (n - s.length) c) ++ s

/-- The character class kept by `replace(/[^A-Z\d]/g, '')`. -/
def isTypeChar (c : Char) : Bool :=
  ('A' ≤ c && c ≤ 'Z') || ('0' ≤ c && c ≤ '9')

/-- The type-code normalisation inlined at the top of
`generateNewIdAndUpdateCounters`:
`(typeStr || 'UNK').toUpperCase().replace(/[^A-Z\d]/g, '').substring(0, 4)`.
`toUpperCase` is modelled by mapping `Char.toUpper` over the characters
(they agree on the material-type alphabet). -/
def normalizeType (typeStr : String) : String :=
  let base := if typeStr = "" then "UNK" else typeStr
  String.mk (((base.data.map Char.toUpper).filter isTypeChar).take 4)

/-- The persisted `idCounters` object.  A field is `none` when the key is
absent from the JS object.  `typeCounters` maps a normalised type code to
the object `{ nextSpoolNum }`; `colorMap` maps a manufacturer colour label
to its code string. -/
structure IdCounters where
  colorMap : Option (List (String × String))
  nextColorNum : JsNat
  typeCounters : Option (List (String × JsNat))
  version : JsNat
deriving DecidableEq, Repr

/-- The empty JS object `{}` read as counters. -/
def emptyCounters : IdCounters := ⟨none, none, none, none⟩

/-- First-match lookup in a JS string-keyed object. -/
def lookupKey {α : Type} (m : List (String × α)) (k : String) : Option α :=
  match m with
  | [] => none
  | (k', v) :: r => if k' = k then some v else lookupKey r k

/-- Assignment `m[k] = v` on a JS object: an existing key keeps its
position, a fresh key is appended (JS property-enumeration order). -/
def setKey {α : Type} (m : List (String × α)) (k : String) (v : α) :
    List (String × α) :=
  match m with
  | [] => [(k, v)]
  | (k', v') :: r => if k' = k then (k, v) :: r else (k', v') :: setKey r k v

/-! The body of `generateNewIdAndUpdateCounters` (`src/index.tsx` lines
109-135) is a sequence of mutations of the deep copy `countersCopy`.
Each mutating statement is one named function below (carrying its source
line as a comment); the pure allocator chains them, and the heap-level
`generateNewIdHeap` replays the same chain as writes to the copy's heap
cell. -/

/-- `if (!countersCopy.colorMap) { countersCopy.colorMap = {};
countersCopy.nextColorNum = 1; }` -/
def allocInitColorMap (c : IdCounters) : IdCounters :=
  if c.colorMap = none then { c with colorMap := some [], nextColorNum := some 1 }
  else c

/-- `if (!countersCopy.typeCounters) { countersCopy.typeCounters = {}; }` -/
def allocInitTypeCounters (c : IdCounters) : IdCounters :=
  if c.typeCounters = none then { c with typeCounters := some [] } else c

/-- `if (!countersCopy.typeCounters[type]) { countersCopy.typeCounters[type]
= { nextSpoolNum: 1 }; }` -/
def allocInitTypeEntry (type : String) (c : IdCounters) : IdCounters :=
  if lookupKey (c.typeCounters.getD []) type = none then
    { c with typeCounters := some (setKey (c.typeCounters.getD []) type (some 1)) }
  else c

/-- `if (!countersCopy.colorMap[mfgColor]) { countersCopy.colorMap[mfgColor]
= (countersCopy.nextColorNum++).toString().padStart(3, '0'); }`
(a present entry is falsy exactly when it is the empty string). -/
def allocAssignColor (mfgColor : String) (c : IdCounters) : IdCounters :=
  if (lookupKey (c.colorMap.getD []) mfgColor).getD "" = "" then
    { c with
      colorMap := some (setKey (c.colorMap.getD []) mfgColor
        (padStart (jsNatToString c.nextColorNum) 3 '0')),
      nextColorNum := c.nextColorNum.map (· + 1) }
  else c

/-- The string read of
`(countersCopy.typeCounters[type].nextSpoolNum++).toString().padStart(4, '0')`
(the value before the increment). -/
def allocSpoolString (type : String) (c : IdCounters) : String :=
  padStart (jsNatToString ((lookupKey (c.typeCounters.getD []) type).getD none)) 4 '0'

/-- The increment part of `countersCopy.typeCounters[type].nextSpoolNum++`. -/
def allocIncSpool (type : String) (c : IdCounters) : IdCounters :=
  { c with typeCounters := some (setKey (c.typeCounters.getD []) type
      (((lookupKey (c.typeCounters.getD []) type).getD none).map (· + 1))) }

/-- `const colorCode = countersCopy.colorMap[mfgColor];` -/
def allocColorCode (mfgColor : String) (c : IdCounters) : String :=
  (lookupKey (c.colorMap.getD []) mfgColor).getD ""

/-- `generateNewIdAndUpdateCounters` from `src/index.tsx` (lines 109-135).
The source deep-copies `currentCounters` and mutates only the copy; the
pure result below is the value of that copy (the heap-level frame
property is proved separately on `generateNewIdHeap`). -/
def generateNewIdAndUpdateCounters (typeStr mfgColorStr : String)
    (currentCounters : IdCounters) : String × IdCounters :=
  let type := normalizeType typeStr
  let mfgColor := if mfgColorStr = "" then "Unknown" else mfgColorStr
  -- const countersCopy = JSON.parse(JSON.stringify(currentCounters));
  let c := currentCounters
  let c := allocInitColorMap c
  let c := allocInitTypeCounters c
  let c := allocInitTypeEntry type c
  let c := allocAssignColor mfgColor c
  -- const spoolNum = (countersCopy.typeCounters[type].nextSpoolNum++).toString().padStart(4, '0');
  let spoolNum := allocSpoolString type c
  let c := allocIncSpool type c
  -- const colorCode = countersCopy.colorMap[mfgColor];
  let colorCode := allocColorCode mfgColor c
  -- const newId = `${type}-${spoolNum}-${colorCode}`;
  (type ++ "-" ++ spoolNum ++ "-" ++ colorCode, c)

/-! ## Location tree

`StorageNode` from `src/index.tsx` is `{ name, path, children: StorageNode[] }`.
The children array is spelled as the mutually defined cons-list
`StorageForest` so that the source's tree recursions are structural in
Lean (and therefore reduce in the kernel); `StorageForest` is exactly
`List StorageNode` with its constructors renamed. -/

mutual
inductive StorageNode where
  | mk (name : String) (path : String) (children : StorageForest)
inductive StorageForest where
  | nil
  | cons (head : StorageNode) (tail : StorageForest)
end

def StorageNode.name : StorageNode → String
  | .mk n _ _ => n

def StorageNode.path : StorageNode → String
  | .mk _ p _ => p

def StorageNode.children : StorageNode → StorageForest
  | .mk _ _ cs => cs

/-- A one-node forest (an array literal `[node]`). -/
def StorageForest.one (n : StorageNode) : StorageForest := .cons n .nil

/-- `nodes.push(n)`: append at the end. -/
def StorageForest.push : StorageForest → StorageNode → StorageForest
  | .nil, n => .cons n .nil
  | .cons h t, n => .cons h (t.push n)

/-! ## Schema migration (`migrateData`, `src/index.tsx` lines 159-236) -/

/-- The filament record as `migrateData` reads and writes it.  Fields the
migration never touches are opaque payload and omitted; a field is `none`
when the key is absent (`undefined`).  `id`, `madeDate`, `type` and
`manufacturerColor` are only read through `x || default`, which conflates
`undefined` with `""`, so plain `String` with `""` for "absent" is an
exact model for them. -/
structure RawFilament where
  id : String
  madeDate : String
  type : String
  manufacturerColor : String
  locationPath : Option String
  spoolLength : Option ℚ
  netWeight : Option ℚ
  totalWeight : Option ℚ
  spoolWeight : ℚ
  spoolSize : Option ℚ
  diameter : Option ℚ
  storageLocation : Option String
  storageZone : Option String
  storagePosition : Option String
deriving DecidableEq, Repr

/-- The printer record as `migrateData` reads it (`p.id || crypto.randomUUID()`
conflates an absent id with `""`). -/
structure RawPrinter where
  id : String
  name : String
  manufacturer : String
  nozzle : String
  filamentDiameter : Option ℚ
deriving DecidableEq, Repr

/-- The raw persisted bundle handed to `migrateData`; a top-level member is
`none` when the key is absent. -/
structure RawBundle where
  filaments : Option (List RawFilament)
  storageTree : Option StorageForest
  idCounters : Option IdCounters
  printers : Option (List RawPrinter)

/-- The canonical bundle `migrateData` returns. -/
structure MigratedBundle where
  filaments : List RawFilament
  storageTree : StorageForest
  idCounters : IdCounters
  printers : List RawPrinter

/-- `x || d` on a JS number (`0` is falsy). -/
def jsOrQ (x : Option ℚ) (d : ℚ) : ℚ :=
  match x with
  | some v => if v = 0 then d else v
  | none => d

/-- `x || d` on a JS counter value (`0`, `NaN` and `undefined` are falsy). -/
def jsOrNat (x : JsNat) (d : ℕ) : ℕ :=
  match x with
  | some v => if v = 0 then d else v
  | none => d

/-- `[...xs].join(' / ')`. -/
def joinSep : List String → String
  | [] => ""
  | [s] => s
  | s :: r => s ++ " / " ++ joinSep r

/-- The per-item legacy normalisation body of `migrateData` (the
`rawFilaments.map` inside the `needsLegacyMigration` branch).  `calcLen`
stands for `parseFloat(calculateLength(...).toFixed(2))`: double-precision
arithmetic on π and the density table, taken as a parameter of the model. -/
def migFil1 (calcLen : ℚ → ℚ → String → ℚ) (f : RawFilament) : RawFilament :=
  -- if (newF.netWeight !== undefined) { spoolSize = netWeight;
  --   totalWeight = totalWeight ?? (netWeight + spoolWeight); delete netWeight; }
  let f := match f.netWeight with
    | some w =>
      { f with spoolSize := some w,
               totalWeight := some (f.totalWeight.getD (w + f.spoolWeight)),
               netWeight := none }
    | none => f
  -- if (newF.spoolLength === undefined) { spoolLength = round2(calculateLength(
  --   spoolSize || 1000, diameter || 1.75, type || 'pla')); }
  let f := match f.spoolLength with
    | none =>
      let len := calcLen (jsOrQ f.spoolSize 1000) (jsOrQ f.diameter (7/4))
        (if f.type = "" then "pla" else f.type)
      { f with spoolLength := some len }
    | some _ => f
  -- if (newF.locationPath === undefined) { locationPath =
  --   [storageLocation, storageZone, storagePosition].filter(Boolean).join(' / ');
  --   delete the three legacy fields; }
  let f := match f.locationPath with
    | none =>
      let joined := joinSep
        (([f.storageLocation, f.storageZone, f.storagePosition].filterMap id).filter (· ≠ ""))
      { f with locationPath := some joined,
               storageLocation := none, storageZone := none, storagePosition := none }
    | some _ => f
  f

/-- `rawFilaments.length > 0 && rawFilaments.some(f =>
f.locationPath === undefined || f.spoolLength === undefined)`, and the
guarded map. -/
def legacyStep (calcLen : ℚ → ℚ → String → ℚ) (fs : List RawFilament) :
    List RawFilament :=
  if !fs.isEmpty && fs.any (fun f => f.locationPath.isNone || f.spoolLength.isNone)
  then fs.map (migFil1 calcLen) else fs

/-- Code-point comparison of strings (structural, so that it reduces in the
kernel); models `String.prototype.localeCompare` on the ASCII data the
sort key contains. -/
def charsLt : List Char → List Char → Bool
  | [], [] => false
  | [], _ :: _ => true
  | _ :: _, [] => false
  | a :: as, b :: bs => if a = b then charsLt as bs else decide (a < b)

/-- The sort comparator
`(a.madeDate || '').localeCompare(b.madeDate || '') || (a.id || '').localeCompare(b.id || '')`
read as "a comes no later than b". -/
def filSortLe (a b : RawFilament) : Bool :=
  charsLt a.madeDate.data b.madeDate.data ||
    (a.madeDate = b.madeDate &&
      (charsLt a.id.data b.id.data || a.id = b.id))

/-- Stable insertion used by `jsSort`. -/
def insertSorted {α : Type} (le : α → α → Bool) (a : α) : List α → List α
  | [] => [a]
  | b :: r => if le a b then a :: b :: r else b :: insertSorted le a r

/-- `Array.prototype.sort` with a comparator defining a total preorder is
the stable sort for it (ES2019); a stable sort is unique, so the stable
insertion sort below is an exact model of `[...finalFilaments].sort(...)`. -/
def jsSort {α : Type} (le : α → α → Bool) (l : List α) : List α :=
  l.foldr (insertSorted le) []

/-- The initial `{ colorMap: {}, nextColorNum: 1, typeCounters: {} }` of
both counter-rebuilding branches. -/
def initialCounters : IdCounters := ⟨some [], some 1, some [], none⟩

/-- The V3 re-identification loop: `sortedFilaments.map` threading
`newCounters` through `generateNewIdAndUpdateCounters` (the
`Object.assign(newCounters, updatedCounters)` makes the accumulation
sequential). -/
def reidentify : List RawFilament → IdCounters → List RawFilament × IdCounters
  | [], c => ([], c)
  | f :: rest, c =>
    let r := generateNewIdAndUpdateCounters f.type f.manufacturerColor c
    let rec' := reidentify rest r.2
    ({ f with id := r.1 } :: rec'.1, rec'.2)

/-- `parseInt(s)` restricted to what the migration feeds it: the leading
run of decimal digits, `none` (NaN) when there is none. -/
def parseIntJs (s : String) : JsNat :=
  let ds := s.data.takeWhile Char.isDigit
  if ds.isEmpty then none
  else some (ds.foldl (fun a c => 10 * a + (c.toNat - 48)) 0)

/-- `Object.keys(idCounters).length === 0` over the counter fields. -/
def keysEmpty (c : IdCounters) : Bool :=
  c.colorMap.isNone && c.nextColorNum.isNone && c.typeCounters.isNone &&
    c.version.isNone

/-- One iteration of the counter-backfill loop
(`finalFilaments.forEach` in the `Object.keys(idCounters).length === 0`
branch of `migrateData`). -/
def backfillStep (c : IdCounters) (f : RawFilament) : IdCounters :=
  -- const [type, spoolNumStr, colorCode] = f.id.split('-');
  let parts := f.id.splitOn "-"
  let type := (parts.getD 0 "")
  let spoolNumStr := (parts.getD 1 "")
  let colorCode := (parts.getD 2 "")
  -- if (!type || !spoolNumStr || !colorCode) return;
  if type = "" || spoolNumStr = "" || colorCode = "" then c
  else
    -- if (!newCounters.typeCounters[type]) typeCounters[type] = { nextSpoolNum: 1 };
    let tcs := c.typeCounters.getD []
    let tcs := if lookupKey tcs type = none then setKey tcs type (some 1) else tcs
    -- typeCounters[type].nextSpoolNum = Math.max(nextSpoolNum, parseInt(spoolNumStr) + 1);
    let cur : JsNat := (lookupKey tcs type).getD none
    let tcs := setKey tcs type (jsMax cur ((parseIntJs spoolNumStr).map (· + 1)))
    let c := { c with typeCounters := some tcs }
    -- const mfgColor = f.manufacturerColor || 'Unknown';
    let mfgColor := if f.manufacturerColor = "" then "Unknown" else f.manufacturerColor
    -- if (!newCounters.colorMap[mfgColor]) { colorMap[mfgColor] = colorCode;
    --   nextColorNum = Math.max(nextColorNum, parseInt(colorCode) + 1); }
    let cm := c.colorMap.getD []
    if (lookupKey cm mfgColor).getD "" = "" then
      { c with colorMap := some (setKey cm mfgColor colorCode),
               nextColorNum := jsMax c.nextColorNum ((parseIntJs colorCode).map (· + 1)) }
    else c

/-- The id-system part of `migrateData`: the `dataVersion < 3`
re-identification branch, the counter-backfill branch, or pass-through. -/
def migrateIds (dv : ℕ) (c0 : IdCounters) (lfs : List RawFilament) :
    List RawFilament × IdCounters :=
  if dv < 3 ∧ lfs ≠ [] then
    reidentify (jsSort filSortLe lfs) initialCounters
  else if keysEmpty c0 ∧ lfs ≠ [] then
    (lfs, lfs.foldl backfillStep initialCounters)
  else (lfs, c0)

/-- `printers.map(p => ({...p, id: p.id || crypto.randomUUID(),
filamentDiameter: p.filamentDiameter ?? 1.75}))`.  `uuids k` is the value
the k-th `crypto.randomUUID()` call would return. -/
def migPrinters (uuids : ℕ → String) : ℕ → List RawPrinter → List RawPrinter
  | _, [] => []
  | k, p :: r =>
    { p with id := if p.id = "" then uuids k else p.id,
             filamentDiameter := some (p.filamentDiameter.getD (7/4)) } ::
      migPrinters uuids (k + 1) r

/-- `migrateData` from `src/index.tsx` (lines 159-236).  `calcLen` and
`uuids` parameterise the two non-deterministic/floating-point external
calls (`calculateLength`-with-rounding and `crypto.randomUUID`). -/
def migrateData (calcLen : ℚ → ℚ → String → ℚ) (uuids : ℕ → String)
    (data : RawBundle) : MigratedBundle :=
  let rawFilaments := data.filaments.getD []
  let storageTree := data.storageTree.getD .nil
  let idCounters := data.idCounters.getD emptyCounters
  -- const dataVersion = data?.idCounters?.version || 1;
  let dataVersion := jsOrNat idCounters.version 1
  let printers := migPrinters uuids 0 (data.printers.getD [])
  let legacyMigratedFilaments := legacyStep calcLen rawFilaments
  let r := migrateIds dataVersion idCounters legacyMigratedFilaments
  -- idCounters.version = 3;
  ⟨r.1, storageTree, { r.2 with version := some 3 }, printers⟩

/-- Re-reading a migrated bundle as raw input (every top-level member is
present). -/
def MigratedBundle.toRaw (b : MigratedBundle) : RawBundle :=
  ⟨some b.filaments, some b.storageTree, some b.idCounters, some b.printers⟩

/-! ## StorageManager tree operations (`src/index.tsx` lines 907-968)

The `prompt`/`confirm` wrappers and `setTree` are UI plumbing; the
functions below are the tree transformations they apply.  The deep copy
taken before each transformation is a value copy. -/

/-- Pre-order path listing (the `traverse` closures of
`handleSaveStorageTree` and `allLocationPaths`). -/
def allPaths : StorageForest → List String
  | .nil => []
  | .cons (.mk _ p cs) rest => p :: (allPaths cs ++ allPaths rest)

/-- The recursive `findAndAdd` closure of `handleAdd`: pushes `newNode`
onto the children of the first node whose path is `p`, returning whether
it was found. -/
def findAndAdd (p : String) (newNode : StorageNode) :
    StorageForest → StorageForest × Bool
  | .nil => (.nil, false)
  | .cons (.mk n q cs) rest =>
    if q = p then (.cons (.mk n q (cs.push newNode)) rest, true)
    else
      let rc := findAndAdd p newNode cs
      if rc.2 then (.cons (.mk n q rc.1) rest, true)
      else
        let rr := findAndAdd p newNode rest
        (.cons (.mk n q cs) rr.1, rr.2)

/-- `handleAdd(path)` with the prompted `name`: the new node's path is
``path ? `${path} / ${name}` : name``; an empty `path` pushes at the
root, otherwise the node is attached under the node at `path`.  There is
no duplicate-path check anywhere in the function. -/
def handleAdd (tree : StorageForest) (path name : String) : StorageForest :=
  let newNode : StorageNode := .mk name (if path = "" then name else path ++ " / " ++ name) .nil
  if path = "" then tree.push newNode
  else (findAndAdd path newNode tree).1

/-- The `findAndDelete` closure of `handleDelete`:
`nodes.filter(n => n.path !== p).map(n => ({...n, children: findAndDelete(n.children, p)}))`,
written as one interleaved recursion. -/
def findAndDelete (p : String) : StorageForest → StorageForest
  | .nil => .nil
  | .cons (.mk n q cs) rest =>
    if q = p then findAndDelete p rest
    else .cons (.mk n q (findAndDelete p cs)) (findAndDelete p rest)

/-- `handleDelete(path)` (after the user confirmation). -/
def handleDelete (tree : StorageForest) (path : String) : StorageForest :=
  findAndDelete path tree

/-- `child.path.replace(new RegExp(`^${old}`), new)`: on the paths this is
applied to (descendants of the renamed node, which carry the old path as a
literal prefix of regex-neutral text) the regex rewrites exactly the
literal prefix. -/
def replaceStart (old new : String) (s : String) : String :=
  if old.data.isPrefixOf s.data then new ++ String.mk (s.data.drop old.data.length)
  else s

/-- The `updateChildPaths` closure of `handleRename`: rewrites every
descendant's path with the top-level (oldParentPath, newParentPath) pair. -/
def updateChildPaths (old new : String) : StorageForest → StorageForest
  | .nil => .nil
  | .cons (.mk n q cs) rest =>
    .cons (.mk n (replaceStart old new q) (updateChildPaths old new cs))
      (updateChildPaths old new rest)

/-- Last occurrence of the `" / "` separator: `some (before, after)`
splits the character list around the last occurrence.  Models
`p.includes(' / ')` / `p.lastIndexOf(' / ')` / `p.substring`. -/
def breakLastSep : List Char → Option (List Char × List Char)
  | [] => none
  | c :: rest =>
    match breakLastSep rest with
    | some r => some (c :: r.1, r.2)
    | none =>
      match c :: rest with
      | ' ' :: '/' :: ' ' :: suf => some ([], suf)
      | _ => none

/-- `p.includes(' / ') ? p.substring(0, p.lastIndexOf(' / ')) : ''`. -/
def parentOfPath (p : String) : String :=
  match breakLastSep p.data with
  | some r => String.mk r.1
  | none => ""

/-- The `findAndRename` closure of `handleRename`: renames the first node
whose path is `p`, rewrites its own path from its parent path and the new
name, and rewrites all its descendants' paths; returns whether it found
the node.  There is no collision check against the rest of the tree. -/
def findAndRename (p newName : String) : StorageForest → StorageForest × Bool
  | .nil => (.nil, false)
  | .cons (.mk n q cs) rest =>
    if q = p then
      let parentPath := parentOfPath p
      let newPath := if parentPath = "" then newName else parentPath ++ " / " ++ newName
      (.cons (.mk newName newPath (updateChildPaths q newPath cs)) rest, true)
    else
      let rc := findAndRename p newName cs
      if rc.2 then (.cons (.mk n q rc.1) rest, true)
      else
        let rr := findAndRename p newName rest
        (.cons (.mk n q cs) rr.1, rr.2)

/-- `handleRename(path, oldName)` with the prompted `newName` (after the
`!newName || newName === oldName` early return). -/
def handleRename (tree : StorageForest) (path newName : String) : StorageForest :=
  (findAndRename path newName tree).1

/-! ## Committing a tree edit (`App.handleSaveStorageTree`, lines 1546-1561) -/

/-- An inventory item as `handleSaveStorageTree` touches it: only
`locationPath` is read or written, every other `Filament` field is carried
through the spread unchanged and is opaque here. -/
structure InvItem where
  id : String
  locationPath : String
deriving DecidableEq, Repr

/-- `App.handleSaveStorageTree`: diffs the old and new path sets and
clears `locationPath` on every item whose path is among the vanished
ones; returns the updated items (the tree state is then replaced by
`newTree`). -/
def handleSaveStorageTree (oldTree newTree : StorageForest)
    (items : List InvItem) : List InvItem :=
  let oldPaths := allPaths oldTree
  let newPaths := allPaths newTree
  let deletedPaths := oldPaths.filter (fun p => !newPaths.contains p)
  if deletedPaths.length > 0 then
    items.map (fun f => if deletedPaths.contains f.locationPath then
      { f with locationPath := "" } else f)
  else items

/-! ## Heap-level view of the allocator (for the copy-on-write contract)

`generateNewIdAndUpdateCounters` starts with
`const countersCopy = JSON.parse(JSON.stringify(currentCounters))` and
every subsequent statement mutates `countersCopy`.  To state that the
caller's object is never written, the heap is modelled as a list of
counter objects addressed by index: the deep copy allocates a fresh cell
at the end of the heap, and each mutating statement of the source is a
write through the copy's address (an `if`-guarded source mutation is a
write of the conditionally-updated record, observationally the same
cell content). -/

/-- Read the object at address `a`. -/
def heapGet (h : List IdCounters) (a : ℕ) : IdCounters := h.getD a emptyCounters

/-- Overwrite the object at address `a`. -/
def heapSet (h : List IdCounters) (a : ℕ) (v : IdCounters) : List IdCounters :=
  h.set a v

/-- `generateNewIdAndUpdateCounters` replayed on the heap: `addr` is the
caller's `currentCounters` object; the function returns the final heap,
the address of `countersCopy` and the new id. -/
def generateNewIdHeap (typeStr mfgColorStr : String) (h : List IdCounters)
    (addr : ℕ) : List IdCounters × ℕ × String :=
  let type := normalizeType typeStr
  let mfgColor := if mfgColorStr = "" then "Unknown" else mfgColorStr
  -- const countersCopy = JSON.parse(JSON.stringify(currentCounters));
  let copyAddr := h.length
  let h := h ++ [heapGet h addr]
  -- the mutations of countersCopy, each through copyAddr:
  let h := heapSet h copyAddr (allocInitColorMap (heapGet h copyAddr))
  let h := heapSet h copyAddr (allocInitTypeCounters (heapGet h copyAddr))
  let h := heapSet h copyAddr (allocInitTypeEntry type (heapGet h copyAddr))
  let h := heapSet h copyAddr (allocAssignColor mfgColor (heapGet h copyAddr))
  let spoolNum := allocSpoolString type (heapGet h copyAddr)
  let h := heapSet h copyAddr (allocIncSpool type (heapGet h copyAddr))
  let colorCode := allocColorCode mfgColor (heapGet h copyAddr)
  (h, copyAddr, type ++ "-" ++ spoolNum ++ "-" ++ colorCode)

/-! ## Allocation sequences (for the uniqueness / monotonicity claims) -/

/-- A sequence of allocator calls, each receiving the counters returned by
the previous one; returns all issued ids and the final counters. -/
def allocList (c : IdCounters) : List (String × String) → List String × IdCounters
  | [] => ([], c)
  | (t, m) :: rest =>
    let r := generateNewIdAndUpdateCounters t m c
    let rr := allocList r.2 rest
    (r.1 :: rr.1, rr.2)

/-- The `nextSpoolNum` the allocator would use next for type code `T`
(an absent entry is created as 1); `none` is the NaN state. -/
def nextSpoolOf (c : IdCounters) (T : String) : JsNat :=
  match lookupKey (c.typeCounters.getD []) T with
  | some e => e
  | none => some 1

/-- Well-formed counters: no `nextSpoolNum` entry is in the NaN state.
Counters produced by the system itself (starting from `{}`) always are;
NaN can only be injected by hand-editing a bundle. -/
def WFCounters (c : IdCounters) : Prop :=
  ∀ p ∈ c.typeCounters.getD [], (p : String × JsNat).2.isSome = true

instance : DecidablePred WFCounters := fun c =>
  List.decidableBAll _ (c.typeCounters.getD [])

/-- Numeric value of a digit string (the proof-side inverse of
`decRepr`). -/
def charsVal (l : List Char) : ℕ :=
  l.foldl (fun a c => 10 * a + (c.toNat - 48)) 0

/-- Invariant tying an already-issued id to the current counters: the id
splits as `T-spool-color` with a dash-free type code `T` and a spool
number strictly below the counter the state holds for `T`.  Every id the
allocator returns satisfies it for the updated counters, and it is stable
under further allocations — which is what makes issued ids pairwise
distinct. -/
def IssuedOK (c : IdCounters) (id : String) : Prop :=
  ∃ (T : String) (n : ℕ) (color : String),
    ('-' ∉ T.data) ∧
    id = T ++ "-" ++ padStart (jsNatToString (some n)) 4 '0' ++ "-" ++ color ∧
    ∃ m : ℕ, nextSpoolOf c T = some m ∧ n < m

/-! ## Shared helper lemmas -/

theorem heapGet_append_lt (h : List IdCounters) (x : IdCounters) {a : ℕ}
    (ha : a < h.length) : heapGet (h ++ [x]) a = heapGet h a :=
  List.getD_append h [x] emptyCounters a ha

theorem heapGet_append_self (h : List IdCounters) (x : IdCounters) :
    heapGet (h ++ [x]) h.length = x := by
  simp [heapGet, List.getD_eq_getElem?_getD, List.getElem?_append_right]

theorem heapGet_heapSet_self (h : List IdCounters) (v : IdCounters) {a : ℕ}
    (ha : a < h.length) : heapGet (heapSet h a v) a = v := by
  simp [heapGet, heapSet, List.getD_eq_getElem?_getD, List.getElem?_set_self, ha]

theorem heapGet_heapSet_ne (h : List IdCounters) (v : IdCounters) {a b : ℕ}
    (hne : a ≠ b) : heapGet (heapSet h a v) b = heapGet h b := by
  simp [heapGet, heapSet, List.getD_eq_getElem?_getD, List.getElem?_set_ne hne]

theorem heapGet_heapSet_last (h : List IdCounters) (x v : IdCounters) :
    heapGet (heapSet (h ++ [x]) h.length v) h.length = v :=
  heapGet_heapSet_self _ _ (by simp)

theorem heapSet_heapSet (h : List IdCounters) (a : ℕ) (v w : IdCounters) :
    heapSet (heapSet h a v) a w = heapSet h a w := by
  simp [heapSet, List.set_set]

/-- The heap run of the allocator in closed form: it allocates one fresh
cell holding the final copy value and touches nothing else, and its id
and copy value are those of the pure allocator applied to the caller's
object. -/
theorem generateNewIdHeap_spec (t m : String) (h : List IdCounters) (addr : ℕ) :
    generateNewIdHeap t m h addr
      = (heapSet (h ++ [heapGet h addr]) h.length
           (generateNewIdAndUpdateCounters t m (heapGet h addr)).2,
         h.length,
         (generateNewIdAndUpdateCounters t m (heapGet h addr)).1) := by
  simp only [generateNewIdHeap, generateNewIdAndUpdateCounters,
    heapGet_append_self, heapGet_heapSet_last, heapSet_heapSet]

/-- A root-level `handleAdd` appends the new node's path after all
existing paths (pre-order). -/
theorem allPaths_push : ∀ (f : StorageForest) (n : StorageNode),
    allPaths (f.push n) = allPaths f ++ allPaths (.one n)
  | .nil, n => by simp [StorageForest.push, StorageForest.one, allPaths]
  | .cons (.mk a p cs) t, n => by
    have ih := allPaths_push t n
    simp [StorageForest.push, allPaths, ih, StorageForest.one]

/-- `handleSaveStorageTree` in closed form: an item's `locationPath` is
cleared exactly when it is a path of the old tree that no longer occurs in
the new one; everything else about the item is untouched. -/
theorem saveTree_eq (oldTree newTree : StorageForest) (items : List InvItem) :
    handleSaveStorageTree oldTree newTree items
      = items.map (fun it =>
          if it.locationPath ∈ allPaths oldTree ∧ it.locationPath ∉ allPaths newTree
          then { it with locationPath := "" } else it) := by
  unfold handleSaveStorageTree
  have hiff : ∀ x : String,
      ((((allPaths oldTree).filter fun p => !(allPaths newTree).contains p).contains x) = true)
        ↔ (x ∈ allPaths oldTree ∧ x ∉ allPaths newTree) := by
    intro x
    simp [List.mem_filter, List.elem_iff]
  by_cases h : ((allPaths oldTree).filter
      (fun p => !(allPaths newTree).contains p)).length > 0
  · rw [if_pos h]
    refine List.map_congr_left ?_
    intro it _
    by_cases hm : it.locationPath ∈ allPaths oldTree ∧ it.locationPath ∉ allPaths newTree
    · rw [if_pos ((hiff _).mpr hm), if_pos hm]
    · rw [if_neg (fun hc => hm ((hiff _).mp hc)), if_neg hm]
  · rw [if_neg h]
    have hnil : ((allPaths oldTree).filter
        (fun p => !(allPaths newTree).contains p)) = [] := by
      cases heq : (allPaths oldTree).filter (fun p => !(allPaths newTree).contains p) with
      | nil => rfl
      | cons a l => exact absurd (by rw [heq]; simp) h
    have hall : ∀ it : InvItem,
        ¬(it.locationPath ∈ allPaths oldTree ∧ it.locationPath ∉ allPaths newTree) := by
      intro it hm
      have hmem : it.locationPath ∈ ((allPaths oldTree).filter
          (fun p => !(allPaths newTree).contains p)) :=
        List.elem_iff.mp ((hiff _).mpr hm)
      rw [hnil] at hmem
      exact absurd hmem (List.not_mem_nil _)
    conv_lhs => rw [show items = items.map id from (List.map_id items).symm]
    refine List.map_congr_left ?_
    intro it _
    rw [if_neg (hall it)]
    rfl

/-! ## The claims -/

/-- C7: allocating for ("PLA", "Galaxy Black"), then ("PETG", "Galaxy Black"),
then ("PLA", "Arctic White") from empty counters yields the ids
PLA-0001-001, PETG-0001-001 and PLA-0002-002: the colour code 001 is
reused across both material types for the colour label "Galaxy Black". -/
theorem colorCodes_shared_across_types :
    (let s1 := generateNewIdAndUpdateCounters "PLA" "Galaxy Black" emptyCounters
     let s2 := generateNewIdAndUpdateCounters "PETG" "Galaxy Black" s1.2
     let s3 := generateNewIdAndUpdateCounters "PLA" "Arctic White" s2.2
     [s1.1, s2.1, s3.1]) = ["PLA-0001-001", "PETG-0001-001", "PLA-0002-002"] := by
  decide

/-- C8(counterexample): the claim states that whenever the normalisation
of `materialType` is empty the type code defaults to "UNK"; but the code
applies the "UNK" default before normalising, so the non-empty input
"!!!" normalises to the empty type code and the composed id is
"-0001-001", not "UNK-0001-001". -/
theorem typeCode_empty_normalization_not_UNK :
    normalizeType "!!!" = "" ∧
    (generateNewIdAndUpdateCounters "!!!" "Red" emptyCounters).1 = "-0001-001" ∧
    (generateNewIdAndUpdateCounters "!!!" "Red" emptyCounters).1 ≠ "UNK-0001-001" := by
  decide

/-- C8(amended): the allocator normalises `materialType` to an uppercase
alphanumeric code truncated to 4 characters and composes the id
`{typeCode}-{spoolNumber:04d}-{colorCode:03d}`; the "UNK" default applies
only when the input string itself is empty (before normalisation), so a
non-empty input whose normalisation is empty yields an empty type code. -/
theorem typeCode_normalization_shape (typeStr mfgColorStr : String) (c : IdCounters) :
    (∃ sp cc, (generateNewIdAndUpdateCounters typeStr mfgColorStr c).1
        = normalizeType typeStr ++ "-" ++ padStart (jsNatToString sp) 4 '0' ++ "-" ++ cc) ∧
    (normalizeType typeStr).data.length ≤ 4 ∧
    (normalizeType typeStr).data.all isTypeChar = true ∧
    normalizeType "" = "UNK" ∧ normalizeType "!!!" = "" := by
  have hdata : (normalizeType typeStr).data
      = (((if typeStr = "" then "UNK" else typeStr).data.map Char.toUpper).filter
          isTypeChar).take 4 := rfl
  refine ⟨⟨_, _, rfl⟩, ?_, ?_, by decide, by decide⟩
  · rw [hdata]
    exact List.length_take_le 4 _
  · rw [hdata, List.all_eq_true]
    intro ch hch
    exact (List.mem_filter.mp (List.take_subset _ _ hch)).2

/-- C5: renaming `Shelf1 / BoxA` to `BoxB` rewrites the renamed node's own
name and path and its descendant `Bin1`'s path to `Shelf1 / BoxB / Bin1`,
while the sibling `Shelf1 / BoxA2` is left untouched (only the renamed
node's own subtree is rewritten, so the prefix rewrite cannot leak onto
`BoxA2`); the code joins path segments with `" / "`. -/
theorem rename_rewrites_subtree_segmentwise :
    handleRename (.one (.mk "Shelf1" "Shelf1"
        (.cons (.mk "BoxA" "Shelf1 / BoxA" (.one (.mk "Bin1" "Shelf1 / BoxA / Bin1" .nil)))
          (.one (.mk "BoxA2" "Shelf1 / BoxA2" .nil))))) "Shelf1 / BoxA" "BoxB"
      = .one (.mk "Shelf1" "Shelf1"
        (.cons (.mk "BoxB" "Shelf1 / BoxB" (.one (.mk "Bin1" "Shelf1 / BoxB / Bin1" .nil)))
          (.one (.mk "BoxA2" "Shelf1 / BoxA2" .nil)))) := rfl

/-- C2(counterexample): neither `handleAdd` nor `handleRename` contains a
duplicate-path check.  Adding a root node named "A" to a tree that already
has a root with path "A" is not rejected: the tree changes and afterwards
carries the path "A" twice; renaming "B" to "A" next to an existing "A"
likewise goes through and duplicates the path. -/
theorem dup_path_not_rejected :
    allPaths (handleAdd (.one (.mk "A" "A" .nil)) "" "A") = ["A", "A"] ∧
    allPaths (handleAdd (.one (.mk "A" "A" .nil)) "" "A")
      ≠ allPaths (.one (.mk "A" "A" .nil)) ∧
    allPaths (handleRename (.cons (.mk "A" "A" .nil) (.one (.mk "B" "B" .nil))) "B" "A")
      = ["A", "A"] ∧
    allPaths (handleRename (.cons (.mk "A" "A" .nil) (.one (.mk "B" "B" .nil))) "B" "A")
      ≠ allPaths (.cons (.mk "A" "A" .nil) (.one (.mk "B" "B" .nil))) := by
  decide

/-- C2(amended): `handleAdd` and `handleRename` never fail: there is no
`DuplicatePath` (or any other) check, the operation is always applied.  A
root-level add always appends the new node's path after the existing
paths — even when that path already occurs — and a rename whose new path
collides with an existing node is applied all the same, so both
operations can leave the tree with two nodes of the same path. -/
theorem dup_path_always_inserted :
    (∀ (tree : StorageForest) (name : String),
      allPaths (handleAdd tree "" name) = allPaths tree ++ [name]) ∧
    allPaths (handleAdd (.one (.mk "A" "A" .nil)) "" "A") = ["A", "A"] ∧
    allPaths (handleRename (.cons (.mk "A" "A" .nil) (.one (.mk "B" "B" .nil))) "B" "A")
      = ["A", "A"] := by
  refine ⟨?_, by decide, by decide⟩
  intro tree name
  have h := allPaths_push tree (.mk name name .nil)
  simp [handleAdd, h, allPaths, StorageForest.one]

/-- C6(counterexample): the claim requires that after removing
`Shelf1 / BoxA` every item whose `locationPath` equals *or starts with* a
removed path is cleared; but the commit only clears exact matches against
the removed path set, so a dangling item at `Shelf1 / BoxA / Ghost` —
which starts with the removed path `Shelf1 / BoxA` but is no node's path —
keeps its `locationPath` instead of becoming empty. -/
theorem remove_does_not_clear_dangling :
    (let treeD : StorageForest := .one (.mk "Shelf1" "Shelf1"
        (.one (.mk "BoxA" "Shelf1 / BoxA" (.one (.mk "Bin1" "Shelf1 / BoxA / Bin1" .nil)))))
     let afterD := handleDelete treeD "Shelf1 / BoxA"
     (allPaths treeD).filter (fun p => !(allPaths afterD).contains p)
        = ["Shelf1 / BoxA", "Shelf1 / BoxA / Bin1"] ∧
     "Shelf1 / BoxA".data.isPrefixOf "Shelf1 / BoxA / Ghost".data = true ∧
     handleSaveStorageTree treeD afterD [⟨"s4", "Shelf1 / BoxA / Ghost"⟩]
        = [⟨"s4", "Shelf1 / BoxA / Ghost"⟩] ∧
     ("Shelf1 / BoxA / Ghost" : String) ≠ "") := by
  decide

/-- C6(amended): removing `Shelf1 / BoxA` deletes the node and its entire
subtree; the commit diff reports exactly the removed paths
`Shelf1 / BoxA` and `Shelf1 / BoxA / Bin1`, and every item whose
`locationPath` *equals* one of the removed paths becomes empty, while
items elsewhere — including dangling paths that merely start with a
removed path — are left unchanged. -/
theorem remove_cascades_exact_paths :
    (let treeD : StorageForest := .one (.mk "Shelf1" "Shelf1"
        (.one (.mk "BoxA" "Shelf1 / BoxA" (.one (.mk "Bin1" "Shelf1 / BoxA / Bin1" .nil)))))
     let afterD := handleDelete treeD "Shelf1 / BoxA"
     allPaths afterD = ["Shelf1"] ∧
     (allPaths treeD).filter (fun p => !(allPaths afterD).contains p)
        = ["Shelf1 / BoxA", "Shelf1 / BoxA / Bin1"] ∧
     handleSaveStorageTree treeD afterD
        [⟨"s1", "Shelf1 / BoxA"⟩, ⟨"s2", "Shelf1 / BoxA / Bin1"⟩,
         ⟨"s3", "Shelf1"⟩, ⟨"s4", "Shelf1 / BoxA / Ghost"⟩]
        = [⟨"s1", ""⟩, ⟨"s2", ""⟩, ⟨"s3", "Shelf1"⟩,
           ⟨"s4", "Shelf1 / BoxA / Ghost"⟩]) := by
  decide

/-- C3(counterexample): committing a rename of `Shelf1` to `Shelf2` does
not rewrite an item located at `Shelf1` to `Shelf2`; the commit diff sees
the old path as deleted and clears the item's `locationPath` to empty. -/
theorem rename_commit_orphans_items :
    (let oldT : StorageForest := .one (.mk "Shelf1" "Shelf1" .nil)
     let newT := handleRename oldT "Shelf1" "Shelf2"
     allPaths newT = ["Shelf2"] ∧
     handleSaveStorageTree oldT newT [⟨"X", "Shelf1"⟩] = [⟨"X", ""⟩] ∧
     handleSaveStorageTree oldT newT [⟨"X", "Shelf1"⟩] ≠ [⟨"X", "Shelf2"⟩]) := by
  decide

/-- C3(amended): after a rename is committed through
`handleSaveStorageTree`, every item whose `locationPath` was a path of the
old tree that no longer occurs in the renamed tree (the renamed node and
its descendants, unless an equal path survives elsewhere) has its
`locationPath` cleared to the empty string — the commit treats the
vanished old paths as deletions and never maps an item to the new path;
all other items are unchanged. -/
theorem rename_commit_clears_old_paths (tree : StorageForest)
    (p newName : String) (items : List InvItem) :
    handleSaveStorageTree tree (handleRename tree p newName) items
      = items.map (fun it =>
          if it.locationPath ∈ allPaths tree ∧
             it.locationPath ∉ allPaths (handleRename tree p newName)
          then { it with locationPath := "" } else it) :=
  saveTree_eq tree (handleRename tree p newName) items

/-- Dead-code fact behind C1: the counter-backfill branch of `migrateData`
can never run.  Its guard needs `Object.keys(idCounters).length === 0`,
but then `idCounters.version` is absent, `dataVersion` defaults to 1 < 3,
and (with any filaments present) the V3 re-identification branch fires
first. -/
theorem backfill_branch_dead (c0 : IdCounters) (lfs : List RawFilament)
    (hempty : keysEmpty c0 = true) (hne : lfs ≠ []) :
    migrateIds (jsOrNat c0.version 1) c0 lfs
      = reidentify (jsSort filSortLe lfs) initialCounters := by
  have hv : c0.version = none := by
    unfold keysEmpty at hempty
    cases hver : c0.version with
    | none => rfl
    | some v =>
      rw [hver] at hempty
      simp at hempty
  rw [hv]
  unfold migrateIds
  rw [if_pos ⟨by norm_num [jsOrNat], hne⟩]

/-- C1: a bundle whose items carry current-format ids but whose counter
state is missing does *not* get its counters backfilled from the ids:
because the missing counters also mean a missing version stamp,
`dataVersion` defaults to 1 and the V3 re-identification branch runs,
regenerating every id from empty counters.  On the claim's scenario the
ids are not left unchanged (the PLA item becomes PLA-0001-002) and
`typeCounters` ends at PLA ↦ nextSpoolNum 2, not 4. -/
theorem migrate_missing_counters_reidentifies :
    (let fPLA : RawFilament := ⟨"PLA-0003-002", "", "PLA", "Galaxy Black",
        some "", some 330, none, some 1250, 250, some 1000, some 2, none, none, none⟩
     let fABS : RawFilament := ⟨"ABS-0001-001", "", "ABS", "Jet Black",
        some "", some 100, none, some 1200, 200, some 1000, some 2, none, none, none⟩
     let out := migrateData (fun _ _ _ => 0) (fun _ => "u")
        ⟨some [fPLA, fABS], some .nil, none, some []⟩
     out.filaments.map (·.id) = ["ABS-0001-001", "PLA-0001-002"] ∧
     out.filaments.map (·.id) ≠ ["PLA-0003-002", "ABS-0001-001"] ∧
     lookupKey (out.idCounters.typeCounters.getD []) "PLA" = some (some 2) ∧
     lookupKey (out.idCounters.typeCounters.getD []) "PLA" ≠ some (some 4) ∧
     lookupKey (out.idCounters.typeCounters.getD []) "ABS" = some (some 2) ∧
     out.idCounters.version = some 3) := by
  decide

/-- C10: the allocator never writes to the caller's counters object.  On
the heap model, after `generateNewIdHeap` the cell at the caller's
address still holds exactly its old value; every update is visible only
in the freshly allocated copy cell (the returned `updatedCounters`),
whose content — and the returned id — are those of the pure allocator. -/
theorem allocator_no_caller_mutation (typeStr mfgColorStr : String)
    (h : List IdCounters) (addr : ℕ) (haddr : addr < h.length) :
    heapGet (generateNewIdHeap typeStr mfgColorStr h addr).1 addr = heapGet h addr ∧
    (generateNewIdHeap typeStr mfgColorStr h addr).2.2
      = (generateNewIdAndUpdateCounters typeStr mfgColorStr (heapGet h addr)).1 ∧
    heapGet (generateNewIdHeap typeStr mfgColorStr h addr).1
        (generateNewIdHeap typeStr mfgColorStr h addr).2.1
      = (generateNewIdAndUpdateCounters typeStr mfgColorStr (heapGet h addr)).2 := by
  rw [generateNewIdHeap_spec]
  refine ⟨?_, rfl, ?_⟩
  · rw [heapGet_heapSet_ne _ _ (ne_of_gt haddr), heapGet_append_lt h _ haddr]
  · exact heapGet_heapSet_self _ _ (by simp)

/-- Witness for C10 at a concrete heap: one caller cell holding `{}`. -/
theorem allocator_no_caller_mutation_witness :
    (0 < ([emptyCounters] : List IdCounters).length) ∧
    (heapGet (generateNewIdHeap "PLA" "Red" [emptyCounters] 0).1 0
        = heapGet [emptyCounters] 0 ∧
     (generateNewIdHeap "PLA" "Red" [emptyCounters] 0).2.2
        = (generateNewIdAndUpdateCounters "PLA" "Red" (heapGet [emptyCounters] 0)).1 ∧
     heapGet (generateNewIdHeap "PLA" "Red" [emptyCounters] 0).1
         (generateNewIdHeap "PLA" "Red" [emptyCounters] 0).2.1
        = (generateNewIdAndUpdateCounters "PLA" "Red" (heapGet [emptyCounters] 0)).2) :=
  ⟨by decide, allocator_no_caller_mutation "PLA" "Red" [emptyCounters] 0 (by decide)⟩

/-! ## Idempotence of the migration -/

theorem migFil1_some (calcLen : ℚ → ℚ → String → ℚ) (f : RawFilament) :
    (migFil1 calcLen f).locationPath.isSome = true ∧
    (migFil1 calcLen f).spoolLength.isSome = true := by
  cases hn : f.netWeight <;> cases hs : f.spoolLength <;> cases hl : f.locationPath <;>
    simp [migFil1, hn, hs, hl]

theorem legacyStep_some (calcLen : ℚ → ℚ → String → ℚ) (fs : List RawFilament) :
    ∀ f ∈ legacyStep calcLen fs,
      f.locationPath.isSome = true ∧ f.spoolLength.isSome = true := by
  intro f hf
  unfold legacyStep at hf
  split at hf
  case isTrue h =>
    obtain ⟨g, _, rfl⟩ := List.mem_map.mp hf
    exact migFil1_some calcLen g
  case isFalse h =>
    by_cases he : fs = []
    · subst he
      exact absurd hf (List.not_mem_nil f)
    · have hne : fs.isEmpty = false := by
        simpa [List.isEmpty_iff] using he
      have hany : fs.any (fun f => f.locationPath.isNone || f.spoolLength.isNone) = false := by
        cases hA : fs.any (fun f => f.locationPath.isNone || f.spoolLength.isNone) with
        | false => rfl
        | true => exact absurd (by rw [hne, hA]; rfl) h
      have hnot := List.any_eq_false.mp hany f hf
      simp only [Bool.or_eq_true, not_or] at hnot
      constructor
      · cases hlp : f.locationPath with
        | none => exact absurd (show f.locationPath.isNone = true by rw [hlp]; rfl) hnot.1
        | some v => rfl
      · cases hsl : f.spoolLength with
        | none => exact absurd (show f.spoolLength.isNone = true by rw [hsl]; rfl) hnot.2
        | some v => rfl

theorem mem_insertSorted {α : Type} (le : α → α → Bool) (a x : α) :
    ∀ (l : List α), x ∈ insertSorted le a l → x = a ∨ x ∈ l
  | [], h => by simpa [insertSorted] using h
  | b :: r, h => by
    rw [insertSorted] at h
    split at h
    · exact (List.mem_cons.mp h).imp id id
    · rcases List.mem_cons.mp h with h1 | h1
      · exact Or.inr (h1 ▸ List.mem_cons_self b r)
      · rcases mem_insertSorted le a x r h1 with h2 | h2
        · exact Or.inl h2
        · exact Or.inr (List.mem_cons_of_mem b h2)

theorem mem_jsSort {α : Type} (le : α → α → Bool) (x : α) :
    ∀ (l : List α), x ∈ jsSort le l → x ∈ l
  | [], h => absurd h (by simp [jsSort])
  | b :: r, h => by
    have h' : x ∈ insertSorted le b (jsSort le r) := h
    rcases mem_insertSorted le b x _ h' with h1 | h1
    · exact h1 ▸ List.mem_cons_self b r
    · exact List.mem_cons_of_mem b (mem_jsSort le x r h1)

theorem reidentify_fields : ∀ (l : List RawFilament) (c : IdCounters) (x : RawFilament),
    x ∈ (reidentify l c).1 →
      ∃ g ∈ l, x.locationPath = g.locationPath ∧ x.spoolLength = g.spoolLength
  | [], _, x, hx => absurd hx (List.not_mem_nil x)
  | f :: rest, c, x, hx => by
    rcases List.mem_cons.mp hx with h | h
    · exact ⟨f, List.mem_cons_self f rest, by rw [h]; exact ⟨rfl, rfl⟩⟩
    · obtain ⟨g, hg, hh⟩ := reidentify_fields rest _ x h
      exact ⟨g, List.mem_cons_of_mem f hg, hh⟩

theorem migrateIds_fields (dv : ℕ) (c0 : IdCounters) (lfs : List RawFilament)
    (hall : ∀ f ∈ lfs, f.locationPath.isSome = true ∧ f.spoolLength.isSome = true) :
    ∀ f ∈ (migrateIds dv c0 lfs).1,
      f.locationPath.isSome = true ∧ f.spoolLength.isSome = true := by
  intro f hf
  unfold migrateIds at hf
  split at hf
  case isTrue h =>
    obtain ⟨g, hg, hl, hs⟩ := reidentify_fields _ _ f hf
    have := hall g (mem_jsSort _ g _ hg)
    rw [hl, hs]
    exact this
  case isFalse h =>
    split at hf
    · exact hall f hf
    · exact hall f hf

theorem legacyStep_of_all (calcLen : ℚ → ℚ → String → ℚ) (fs : List RawFilament)
    (h : ∀ f ∈ fs, f.locationPath.isSome = true ∧ f.spoolLength.isSome = true) :
    legacyStep calcLen fs = fs := by
  unfold legacyStep
  rw [if_neg]
  intro hc
  rcases Bool.and_eq_true_iff.mp hc with ⟨-, hany⟩
  obtain ⟨f, hf, hp⟩ := List.any_eq_true.mp hany
  rcases Bool.or_eq_true_iff.mp hp with hq | hq
  · have hqq := Option.isNone_iff_eq_none.mp hq
    have := (h f hf).1
    rw [hqq] at this
    exact absurd this (by simp)
  · have hqq := Option.isNone_iff_eq_none.mp hq
    have := (h f hf).2
    rw [hqq] at this
    exact absurd this (by simp)

theorem migrateIds_stamped (c : IdCounters) (fs : List RawFilament)
    (hk : keysEmpty c = false) : migrateIds 3 c fs = (fs, c) := by
  unfold migrateIds
  rw [if_neg (fun h => absurd h.1 (by norm_num)), if_neg]
  intro h
  rw [hk] at h
  exact absurd h.1 (by simp)

theorem migPrinters_idem (u₁ u₂ : ℕ → String) (hu : ∀ k, u₁ k ≠ "") :
    ∀ (ps : List RawPrinter) (k j : ℕ),
      migPrinters u₂ j (migPrinters u₁ k ps) = migPrinters u₁ k ps
  | [], _, _ => rfl
  | p :: r, k, j => by
    have hid : (if p.id = "" then u₁ k else p.id) ≠ "" := by
      split
      · exact hu k
      · assumption
    have h1 : migPrinters u₁ k (p :: r)
        = { p with id := if p.id = "" then u₁ k else p.id,
                   filamentDiameter := some (p.filamentDiameter.getD (7/4)) }
          :: migPrinters u₁ (k + 1) r := rfl
    rw [h1]
    have hstep : migPrinters u₂ j
        ({ p with id := if p.id = "" then u₁ k else p.id,
                  filamentDiameter := some (p.filamentDiameter.getD (7/4)) }
          :: migPrinters u₁ (k + 1) r)
        = { p with id := if p.id = "" then u₁ k else p.id,
                   filamentDiameter := some (p.filamentDiameter.getD (7/4)) }
          :: migPrinters u₂ (j + 1) (migPrinters u₁ (k + 1) r) := by
      simp only [migPrinters]
      rw [if_neg hid]
      rfl
    rw [hstep, migPrinters_idem u₁ u₂ hu r (k + 1) (j + 1)]


/-- C4: `migrateData` is idempotent.  Feeding the migrated bundle back in
(with any calculator or uuid source for the second run) reproduces it
byte for byte: the version stamp is 3 both times, the legacy,
re-identification and backfill branches are all skipped on the second
run, and printers keep their assigned ids.  The only hypothesis is that
`crypto.randomUUID` never returns the empty string. -/
theorem migrateData_idempotent (calc1 calc2 : ℚ → ℚ → String → ℚ)
    (u1 u2 : ℕ → String) (b : RawBundle) (hu : ∀ k, u1 k ≠ "") :
    migrateData calc2 u2 (migrateData calc1 u1 b).toRaw = migrateData calc1 u1 b := by
  have hver : (migrateData calc1 u1 b).idCounters.version = some 3 := rfl
  have hfil : (migrateData calc1 u1 b).filaments
      = (migrateIds (jsOrNat ((b.idCounters.getD emptyCounters)).version 1)
          (b.idCounters.getD emptyCounters) (legacyStep calc1 (b.filaments.getD []))).1 := rfl
  have hsome : ∀ f ∈ (migrateData calc1 u1 b).filaments,
      f.locationPath.isSome = true ∧ f.spoolLength.isSome = true := by
    rw [hfil]
    exact migrateIds_fields _ _ _ (legacyStep_some calc1 _)
  have hkeys : keysEmpty (migrateData calc1 u1 b).idCounters = false := by
    unfold keysEmpty
    rw [hver]
    simp
  have hprs : (migrateData calc1 u1 b).printers
      = migPrinters u1 0 (b.printers.getD []) := rfl
  have hstamp : { (migrateData calc1 u1 b).idCounters with version := some 3 }
      = (migrateData calc1 u1 b).idCounters := by
    have h3 := hver
    cases hC : (migrateData calc1 u1 b).idCounters with
    | mk cm nn tc v =>
      rw [hC] at h3
      have hv : v = some 3 := h3
      rw [hv]
  have hsecond : migrateData calc2 u2 (migrateData calc1 u1 b).toRaw
      = ⟨(migrateIds (jsOrNat (migrateData calc1 u1 b).idCounters.version 1)
            (migrateData calc1 u1 b).idCounters
            (legacyStep calc2 (migrateData calc1 u1 b).filaments)).1,
         (migrateData calc1 u1 b).storageTree,
         { (migrateIds (jsOrNat (migrateData calc1 u1 b).idCounters.version 1)
              (migrateData calc1 u1 b).idCounters
              (legacyStep calc2 (migrateData calc1 u1 b).filaments)).2 with
           version := some 3 },
         migPrinters u2 0 (migrateData calc1 u1 b).printers⟩ := rfl
  have hdv : jsOrNat (some 3) 1 = 3 := rfl
  rw [hsecond, legacyStep_of_all calc2 _ hsome, hver, hdv,
    migrateIds_stamped _ _ hkeys]
  show (⟨(migrateData calc1 u1 b).filaments, (migrateData calc1 u1 b).storageTree,
      { (migrateData calc1 u1 b).idCounters with version := some 3 },
      migPrinters u2 0 (migrateData calc1 u1 b).printers⟩ : MigratedBundle)
    = migrateData calc1 u1 b
  rw [hstamp, hprs, migPrinters_idem u1 u2 hu _ 0 0, ← hprs]

/-- Witness for C4 at a concrete bundle (one legacy filament, one printer
without an id, no counters) and a concrete non-empty uuid source. -/
theorem migrateData_idempotent_witness :
    (∀ k : ℕ, (fun _ : ℕ => "u") k ≠ "") ∧
    migrateData (fun _ _ _ => 0) (fun _ => "v")
        (migrateData (fun _ _ _ => 0) (fun _ => "u")
          ⟨some [⟨"F-1", "2024-01-01", "PLA", "Black", none, none, some 1000,
                  none, 250, none, none, some "Regal 1", none, none⟩],
           some (.one (.mk "Regal 1" "Regal 1" .nil)), none,
           some [⟨"", "Printer", "Maker", "0.4", none⟩]⟩).toRaw
      = migrateData (fun _ _ _ => 0) (fun _ => "u")
          ⟨some [⟨"F-1", "2024-01-01", "PLA", "Black", none, none, some 1000,
                  none, 250, none, none, some "Regal 1", none, none⟩],
           some (.one (.mk "Regal 1" "Regal 1" .nil)), none,
           some [⟨"", "Printer", "Maker", "0.4", none⟩]⟩ :=
  ⟨fun _ => show ("u" : String) ≠ "" by decide,
   migrateData_idempotent _ _ _ _ _ (fun _ => show ("u" : String) ≠ "" by decide)⟩

/-! ## Uniqueness and monotonicity of allocated ids -/

theorem mem_decReprAux : ∀ (fuel n : ℕ) (c : Char), c ∈ decReprAux fuel n →
    ∃ d, d < 10 ∧ c = decDigit d
  | 0, n, c, h => absurd h (List.not_mem_nil c)
  | fuel + 1, n, c, h => by
    rw [decReprAux] at h
    split at h
    case isTrue hn =>
      rw [List.mem_singleton.mp h]
      exact ⟨n, hn, rfl⟩
    case isFalse hn =>
      rcases List.mem_append.mp h with h1 | h1
      · exact mem_decReprAux fuel (n / 10) c h1
      · rw [List.mem_singleton.mp h1]
        exact ⟨n % 10, Nat.mod_lt _ (by norm_num), rfl⟩

theorem decRepr_no_dash (n : ℕ) : '-' ∉ decRepr n := by
  intro h
  obtain ⟨d, hd, hc⟩ := mem_decReprAux _ _ _ h
  have hall : ∀ d < 10, decDigit d ≠ '-' := by decide
  exact hall d hd hc.symm

theorem charsVal_append_one (xs : List Char) (c : Char) :
    charsVal (xs ++ [c]) = 10 * charsVal xs + (c.toNat - 48) := by
  unfold charsVal
  rw [List.foldl_append]
  rfl

theorem foldl_zero_replicate (k : ℕ) :
    List.foldl (fun a c => 10 * a + (c.toNat - 48)) 0 (List.replicate k '0') = 0 := by
  induction k with
  | zero => rfl
  | succ k ih =>
    rw [List.replicate_succ, List.foldl_cons]
    have h0 : (10 * 0 + ('0'.toNat - 48)) = 0 := by decide
    rw [h0]
    exact ih

theorem charsVal_replicate_append (k : ℕ) (l : List Char) :
    charsVal (List.replicate k '0' ++ l) = charsVal l := by
  unfold charsVal
  rw [List.foldl_append, foldl_zero_replicate]

theorem charsVal_decReprAux : ∀ (fuel n : ℕ), n < fuel →
    charsVal (decReprAux fuel n) = n
  | 0, n, h => absurd h (Nat.not_lt_zero n)
  | fuel + 1, n, h => by
    rw [decReprAux]
    split
    case isTrue hn =>
      have hdig : (decDigit n).toNat = 48 + n := by
        have hall : ∀ d < 10, (decDigit d).toNat = 48 + d := by decide
        exact hall n hn
      simp only [charsVal, List.foldl]
      rw [hdig]
      omega
    case isFalse hn =>
      have hdivlt : n / 10 < n := Nat.div_lt_self (by omega) (by norm_num)
      rw [charsVal_append_one, charsVal_decReprAux fuel (n / 10) (by omega)]
      have hm : (decDigit (n % 10)).toNat = 48 + n % 10 := by
        have hall : ∀ d < 10, (decDigit d).toNat = 48 + d := by decide
        exact hall _ (Nat.mod_lt _ (by norm_num))
      rw [hm]
      omega

theorem charsVal_decRepr (n : ℕ) : charsVal (decRepr n) = n :=
  charsVal_decReprAux (n + 1) n (Nat.lt_succ_self n)

theorem spoolStr_data (n : ℕ) : (padStart (jsNatToString (some n)) 4 '0').data
    = List.replicate (4 - (decRepr n).length) '0' ++ decRepr n := by
  show (String.mk (List.replicate (4 - (String.mk (decRepr n)).length) '0')
      ++ String.mk (decRepr n)).data = _
  rw [String.data_append]
  rfl

theorem spool_no_dash (n : ℕ) :
    '-' ∉ (padStart (jsNatToString (some n)) 4 '0').data := by
  rw [spoolStr_data]
  intro h
  rcases List.mem_append.mp h with h1 | h1
  · exact absurd (List.eq_of_mem_replicate h1) (by decide)
  · exact decRepr_no_dash n h1

theorem spoolStr_inj {a b : ℕ}
    (h : padStart (jsNatToString (some a)) 4 '0'
       = padStart (jsNatToString (some b)) 4 '0') : a = b := by
  have hd := congrArg String.data h
  rw [spoolStr_data, spoolStr_data] at hd
  have ha : charsVal (List.replicate (4 - (decRepr a).length) '0' ++ decRepr a) = a := by
    rw [charsVal_replicate_append, charsVal_decRepr]
  have hb : charsVal (List.replicate (4 - (decRepr b).length) '0' ++ decRepr b) = b := by
    rw [charsVal_replicate_append, charsVal_decRepr]
  rw [hd, hb] at ha
  exact ha.symm

theorem normType_no_dash (t : String) : '-' ∉ (normalizeType t).data := by
  intro h
  have h2 : '-' ∈ (((if t = "" then "UNK" else t).data.map Char.toUpper).filter
      isTypeChar) := List.take_subset _ _ h
  exact absurd (List.mem_filter.mp h2).2 (by decide)

theorem append_dash_inj : ∀ (a b x y : List Char), '-' ∉ a → '-' ∉ b →
    a ++ '-' :: x = b ++ '-' :: y → a = b ∧ x = y
  | [], [], x, y, _, _, h => ⟨rfl, by simpa using h⟩
  | [], c :: b', x, y, _, hb, h => by
    simp only [List.nil_append, List.cons_append, List.cons.injEq] at h
    have : '-' ∈ c :: b' := by
      rw [← h.1]
      exact List.mem_cons_self '-' b'
    exact absurd this hb
  | c :: a', [], x, y, ha, _, h => by
    simp only [List.nil_append, List.cons_append, List.cons.injEq] at h
    have : '-' ∈ c :: a' := by
      rw [h.1]
      exact List.mem_cons_self '-' a'
    exact absurd this ha
  | c :: a', d :: b', x, y, ha, hb, h => by
    simp only [List.cons_append, List.cons.injEq] at h
    obtain ⟨h1, h2⟩ := h
    obtain ⟨he, hx⟩ := append_dash_inj a' b' x y
      (fun hm => ha (List.mem_cons_of_mem c hm))
      (fun hm => hb (List.mem_cons_of_mem d hm)) h2
    exact ⟨by rw [h1, he], hx⟩

theorem lookupKey_setKey_self {α : Type} : ∀ (m : List (String × α)) (k : String) (v : α),
    lookupKey (setKey m k v) k = some v
  | [], k, v => by simp [setKey, lookupKey]
  | (k', v') :: r, k, v => by
    rw [setKey]
    split
    case isTrue h => rw [lookupKey, if_pos rfl]
    case isFalse h => rw [lookupKey, if_neg h, lookupKey_setKey_self r k v]

theorem lookupKey_setKey_ne {α : Type} : ∀ (m : List (String × α)) (k k' : String) (v : α),
    k' ≠ k → lookupKey (setKey m k v) k' = lookupKey m k'
  | [], k, k', v, hne => by
    rw [setKey]
    show (if k = k' then some v else lookupKey [] k') = lookupKey [] k'
    rw [if_neg (fun h => hne h.symm)]
  | (k0, v0) :: r, k, k', v, hne => by
    rw [setKey]
    split
    case isTrue h =>
      subst h
      rw [lookupKey, lookupKey, if_neg (fun hh => hne hh.symm),
        if_neg (fun hh => hne hh.symm)]
    case isFalse h =>
      rw [lookupKey, lookupKey, lookupKey_setKey_ne r k k' v hne]

theorem lookupKey_mem {α : Type} : ∀ (m : List (String × α)) (k : String) (v : α),
    lookupKey m k = some v → (k, v) ∈ m
  | [], k, v, h => by simp [lookupKey] at h
  | (k0, v0) :: r, k, v, h => by
    rw [lookupKey] at h
    split at h
    case isTrue h0 =>
      have hv := Option.some.inj h
      rw [← h0, ← hv]
      exact List.mem_cons_self _ r
    case isFalse h0 =>
      exact List.mem_cons_of_mem _ (lookupKey_mem r k v h)

theorem mem_setKey {α : Type} : ∀ (m : List (String × α)) (k : String) (v : α)
    (p : String × α), p ∈ setKey m k v → p = (k, v) ∨ p ∈ m
  | [], k, v, p, h => by
    rw [setKey] at h
    exact Or.inl (List.mem_singleton.mp h)
  | (k0, v0) :: r, k, v, p, h => by
    rw [setKey] at h
    split at h
    case isTrue h0 =>
      rcases List.mem_cons.mp h with h1 | h1
      · exact Or.inl h1
      · exact Or.inr (List.mem_cons_of_mem _ h1)
    case isFalse h0 =>
      rcases List.mem_cons.mp h with h1 | h1
      · exact Or.inr (h1 ▸ List.mem_cons_self _ r)
      · rcases mem_setKey r k v p h1 with h2 | h2
        · exact Or.inl h2
        · exact Or.inr (List.mem_cons_of_mem _ h2)

theorem typeCounters_allocInitColorMap (c : IdCounters) :
    (allocInitColorMap c).typeCounters = c.typeCounters := by
  unfold allocInitColorMap
  split <;> rfl

theorem typeCounters_allocAssignColor (mc : String) (c : IdCounters) :
    (allocAssignColor mc c).typeCounters = c.typeCounters := by
  unfold allocAssignColor
  split <;> rfl

theorem nextSpoolOf_congr {c1 c2 : IdCounters} (h : c1.typeCounters = c2.typeCounters)
    (T : String) : nextSpoolOf c1 T = nextSpoolOf c2 T := by
  unfold nextSpoolOf
  rw [h]

theorem WFCounters_congr {c1 c2 : IdCounters} (h : c1.typeCounters = c2.typeCounters)
    (hw : WFCounters c2) : WFCounters c1 := by
  unfold WFCounters at hw ⊢
  rw [h]
  exact hw

theorem nextSpoolOf_allocInitTypeCounters (c : IdCounters) (T : String) :
    nextSpoolOf (allocInitTypeCounters c) T = nextSpoolOf c T := by
  unfold allocInitTypeCounters
  split
  case isTrue h =>
    unfold nextSpoolOf
    rw [h]
    rfl
  case isFalse h => rfl

theorem WFCounters_allocInitTypeCounters {c : IdCounters} (h : WFCounters c) :
    WFCounters (allocInitTypeCounters c) := by
  unfold allocInitTypeCounters
  split
  case isTrue h0 =>
    intro p hp
    exact absurd hp (List.not_mem_nil p)
  case isFalse h0 => exact h

theorem nextSpoolOf_allocInitTypeEntry (ty : String) (c : IdCounters) (T : String) :
    nextSpoolOf (allocInitTypeEntry ty c) T = nextSpoolOf c T := by
  unfold allocInitTypeEntry
  split
  case isTrue h =>
    by_cases hT : T = ty
    · subst hT
      unfold nextSpoolOf
      show (match lookupKey (setKey (c.typeCounters.getD []) T (some 1)) T with
        | some e => e
        | none => some 1) = _
      rw [lookupKey_setKey_self, h]
    · unfold nextSpoolOf
      show (match lookupKey (setKey (c.typeCounters.getD []) ty (some 1)) T with
        | some e => e
        | none => some 1) = _
      rw [lookupKey_setKey_ne _ _ _ _ hT]
  case isFalse h => rfl

theorem WFCounters_allocInitTypeEntry {c : IdCounters} (ty : String) (h : WFCounters c) :
    WFCounters (allocInitTypeEntry ty c) := by
  unfold allocInitTypeEntry
  split
  case isTrue h0 =>
    intro p hp
    have hp' : p ∈ setKey (c.typeCounters.getD []) ty (some 1) := hp
    rcases mem_setKey _ _ _ _ hp' with h1 | h1
    · rw [h1]
      rfl
    · exact h p h1
  case isFalse h0 => exact h

theorem lookup_after_initTypeEntry {c : IdCounters} (ty : String) (h : WFCounters c) :
    ∃ n : ℕ, lookupKey ((allocInitTypeEntry ty c).typeCounters.getD []) ty
        = some (some n) ∧ nextSpoolOf c ty = some n := by
  unfold allocInitTypeEntry
  split
  case isTrue h0 =>
    refine ⟨1, ?_, ?_⟩
    · show lookupKey (setKey (c.typeCounters.getD []) ty (some 1)) ty = some (some 1)
      exact lookupKey_setKey_self _ _ _
    · unfold nextSpoolOf
      rw [h0]
  case isFalse h0 =>
    cases he : lookupKey (c.typeCounters.getD []) ty with
    | none => exact absurd he h0
    | some e =>
      have hs := h _ (lookupKey_mem _ _ _ he)
      cases e with
      | none => simp at hs
      | some n =>
        refine ⟨n, rfl, ?_⟩
        unfold nextSpoolOf
        rw [he]

theorem nextSpoolOf_allocIncSpool_self {c : IdCounters} {ty : String} {n : ℕ}
    (h : lookupKey (c.typeCounters.getD []) ty = some (some n)) :
    nextSpoolOf (allocIncSpool ty c) ty = some (n + 1) := by
  unfold allocIncSpool nextSpoolOf
  show (match lookupKey (setKey (c.typeCounters.getD []) ty
      (((lookupKey (c.typeCounters.getD []) ty).getD none).map (· + 1))) ty with
    | some e => e
    | none => some 1) = some (n + 1)
  rw [lookupKey_setKey_self, h]
  rfl

theorem nextSpoolOf_allocIncSpool_ne (c : IdCounters) (ty T : String) (hne : T ≠ ty) :
    nextSpoolOf (allocIncSpool ty c) T = nextSpoolOf c T := by
  unfold allocIncSpool nextSpoolOf
  show (match lookupKey (setKey (c.typeCounters.getD []) ty
      (((lookupKey (c.typeCounters.getD []) ty).getD none).map (· + 1))) T with
    | some e => e
    | none => some 1) = _
  rw [lookupKey_setKey_ne _ _ _ _ hne]

/-- One allocator call, seen through the counters: the per-type spool
counter of the normalised type strictly increases from its current value
`n` to `n + 1`, every other type's counter is untouched, well-formedness
is preserved, and the issued id is `type-pad4(n)-color`. -/
theorem alloc_spec (t mc : String) (c : IdCounters) (h : WFCounters c) :
    WFCounters (generateNewIdAndUpdateCounters t mc c).2 ∧
    ∃ n : ℕ, nextSpoolOf c (normalizeType t) = some n ∧
      nextSpoolOf (generateNewIdAndUpdateCounters t mc c).2 (normalizeType t)
        = some (n + 1) ∧
      (∀ T, T ≠ normalizeType t →
        nextSpoolOf (generateNewIdAndUpdateCounters t mc c).2 T = nextSpoolOf c T) ∧
      ∃ color : String,
        (generateNewIdAndUpdateCounters t mc c).1
          = normalizeType t ++ "-" ++ padStart (jsNatToString (some n)) 4 '0'
            ++ "-" ++ color := by
  set type := normalizeType t with htype
  set mfg := (if mc = "" then "Unknown" else mc) with hmfg
  set c1 := allocInitColorMap c with hc1
  set c2 := allocInitTypeCounters c1 with hc2
  set c3 := allocInitTypeEntry type c2 with hc3
  set c4 := allocAssignColor mfg c3 with hc4
  have hres2 : (generateNewIdAndUpdateCounters t mc c).2 = allocIncSpool type c4 := rfl
  have hres1 : (generateNewIdAndUpdateCounters t mc c).1
      = type ++ "-" ++ allocSpoolString type c4 ++ "-"
        ++ allocColorCode mfg (allocIncSpool type c4) := rfl
  have hw1 : WFCounters c1 := WFCounters_congr (typeCounters_allocInitColorMap c) h
  have hw2 : WFCounters c2 := WFCounters_allocInitTypeCounters hw1
  have hw3 : WFCounters c3 := WFCounters_allocInitTypeEntry type hw2
  have hw4 : WFCounters c4 := WFCounters_congr (typeCounters_allocAssignColor mfg c3) hw3
  have hs1 : ∀ T, nextSpoolOf c1 T = nextSpoolOf c T :=
    fun T => nextSpoolOf_congr (typeCounters_allocInitColorMap c) T
  have hs2 : ∀ T, nextSpoolOf c2 T = nextSpoolOf c1 T :=
    fun T => nextSpoolOf_allocInitTypeCounters c1 T
  have hs3 : ∀ T, nextSpoolOf c3 T = nextSpoolOf c2 T :=
    fun T => nextSpoolOf_allocInitTypeEntry type c2 T
  have hs4 : ∀ T, nextSpoolOf c4 T = nextSpoolOf c3 T :=
    fun T => nextSpoolOf_congr (typeCounters_allocAssignColor mfg c3) T
  obtain ⟨n, hlk3, hn⟩ := lookup_after_initTypeEntry (c := c2) type hw2
  have hlk4 : lookupKey (c4.typeCounters.getD []) type = some (some n) := by
    rw [typeCounters_allocAssignColor mfg c3]
    exact hlk3
  have hnc : nextSpoolOf c type = some n := by
    rw [← hs1 type, ← hs2 type]
    exact hn
  have hfin_self : nextSpoolOf (allocIncSpool type c4) type = some (n + 1) :=
    nextSpoolOf_allocIncSpool_self hlk4
  have hfin_ne : ∀ T, T ≠ type → nextSpoolOf (allocIncSpool type c4) T = nextSpoolOf c T := by
    intro T hT
    rw [nextSpoolOf_allocIncSpool_ne c4 type T hT, hs4, hs3, hs2, hs1]
  have hwfin : WFCounters (allocIncSpool type c4) := by
    intro p hp
    have hp' : p ∈ setKey (c4.typeCounters.getD []) type
        (((lookupKey (c4.typeCounters.getD []) type).getD none).map (· + 1)) := hp
    rcases mem_setKey _ _ _ _ hp' with h1 | h1
    · rw [h1, hlk4]
      rfl
    · exact hw4 p h1
  have hspool : allocSpoolString type c4 = padStart (jsNatToString (some n)) 4 '0' := by
    unfold allocSpoolString
    rw [hlk4]
    rfl
  refine ⟨?_, n, hnc, ?_, ?_, ?_⟩
  · rw [hres2]
    exact hwfin
  · rw [hres2]
    exact hfin_self
  · intro T hT
    rw [hres2]
    exact hfin_ne T hT
  · exact ⟨allocColorCode mfg (allocIncSpool type c4), by rw [hres1, hspool]⟩

theorem string_eq_of_data {a b : String} (h : a.data = b.data) : a = b := by
  cases a
  cases b
  cases h
  rfl

theorem idParts_data (a b c : String) :
    (a ++ "-" ++ b ++ "-" ++ c).data = a.data ++ '-' :: (b.data ++ '-' :: c.data) := by
  rw [String.data_append, String.data_append, String.data_append, String.data_append]
  show a.data ++ ['-'] ++ b.data ++ ['-'] ++ c.data = _
  simp [List.append_assoc]

theorem issued_mono (t mc : String) (c : IdCounters) (hw : WFCounters c) {id : String}
    (h : IssuedOK c id) : IssuedOK (generateNewIdAndUpdateCounters t mc c).2 id := by
  obtain ⟨T, n0, color0, hT, hid, m0, hm0, hlt⟩ := h
  obtain ⟨-, n, hnc, hself, hne, -⟩ := alloc_spec t mc c hw
  by_cases hTt : T = normalizeType t
  · subst hTt
    refine ⟨normalizeType t, n0, color0, hT, hid, n + 1, hself, ?_⟩
    rw [hm0] at hnc
    have := Option.some.inj hnc
    omega
  · refine ⟨T, n0, color0, hT, hid, m0, ?_, hlt⟩
    rw [hne T hTt]
    exact hm0

theorem issued_new (t mc : String) (c : IdCounters) (hw : WFCounters c) :
    IssuedOK (generateNewIdAndUpdateCounters t mc c).2
      (generateNewIdAndUpdateCounters t mc c).1 := by
  obtain ⟨-, n, hnc, hself, -, color, hid⟩ := alloc_spec t mc c hw
  exact ⟨normalizeType t, n, color, normType_no_dash t, hid, n + 1, hself,
    Nat.lt_succ_self n⟩

theorem issued_fresh (t mc : String) (c : IdCounters) (hw : WFCounters c) {id : String}
    (h : IssuedOK c id) : id ≠ (generateNewIdAndUpdateCounters t mc c).1 := by
  obtain ⟨T, n0, color0, hT, hid, m0, hm0, hlt⟩ := h
  obtain ⟨-, n, hnc, -, -, color, hnew⟩ := alloc_spec t mc c hw
  intro heq
  rw [hid, hnew] at heq
  have hd := congrArg String.data heq
  rw [idParts_data, idParts_data] at hd
  obtain ⟨hTeq, hrest⟩ := append_dash_inj _ _ _ _ hT (normType_no_dash t) hd
  obtain ⟨hpad, -⟩ := append_dash_inj _ _ _ _ (spool_no_dash n0) (spool_no_dash n) hrest
  have hTstr : T = normalizeType t := string_eq_of_data hTeq
  have hn0 : n0 = n := spoolStr_inj (string_eq_of_data hpad)
  rw [hTstr] at hm0
  rw [hm0] at hnc
  have hmn := Option.some.inj hnc
  omega

theorem allocList_pairwise : ∀ (reqs : List (String × String)) (c : IdCounters)
    (acc : List String), WFCounters c → (∀ id ∈ acc, IssuedOK c id) →
    acc.Pairwise (· ≠ ·) → (acc ++ (allocList c reqs).1).Pairwise (· ≠ ·)
  | [], c, acc, _, _, hp => by
    show (acc ++ ([] : List String)).Pairwise _
    rw [List.append_nil]
    exact hp
  | (t, mc) :: rest, c, acc, hw, hiss, hp => by
    have hwf' := (alloc_spec t mc c hw).1
    have hiss' : ∀ id ∈ acc ++ [(generateNewIdAndUpdateCounters t mc c).1],
        IssuedOK (generateNewIdAndUpdateCounters t mc c).2 id := by
      intro id hid
      rcases List.mem_append.mp hid with h1 | h1
      · exact issued_mono t mc c hw (hiss id h1)
      · rw [List.mem_singleton.mp h1]
        exact issued_new t mc c hw
    have hp' : (acc ++ [(generateNewIdAndUpdateCounters t mc c).1]).Pairwise (· ≠ ·) := by
      rw [List.pairwise_append]
      refine ⟨hp, by simp, ?_⟩
      intro a ha b hb
      rw [List.mem_singleton.mp hb]
      exact issued_fresh t mc c hw (hiss a ha)
    have hrec := allocList_pairwise rest (generateNewIdAndUpdateCounters t mc c).2
      (acc ++ [(generateNewIdAndUpdateCounters t mc c).1]) hwf' hiss' hp'
    have hshape : acc ++ (allocList c ((t, mc) :: rest)).1
        = (acc ++ [(generateNewIdAndUpdateCounters t mc c).1])
          ++ (allocList (generateNewIdAndUpdateCounters t mc c).2 rest).1 := by
      rw [List.append_assoc]
      rfl
    rw [hshape]
    exact hrec

/-- C9: from any well-formed counters (no NaN entry — always true of
states the system itself produces), every sequence of allocator calls in
which each call receives the previous call's counters returns pairwise
distinct ids; and at every such state the per-type spool counter of the
called (normalised) type strictly increases by one while every other
type's counter is unchanged — spool numbers are never reused for a
type. -/
theorem alloc_sequence_ids_distinct (c0 : IdCounters)
    (reqs : List (String × String)) (h : WFCounters c0) :
    (allocList c0 reqs).1.Pairwise (· ≠ ·) ∧
    ∀ t mc : String, ∃ n : ℕ,
      nextSpoolOf c0 (normalizeType t) = some n ∧
      nextSpoolOf (generateNewIdAndUpdateCounters t mc c0).2 (normalizeType t)
        = some (n + 1) ∧
      ∀ T, T ≠ normalizeType t →
        nextSpoolOf (generateNewIdAndUpdateCounters t mc c0).2 T = nextSpoolOf c0 T := by
  constructor
  · have hall := allocList_pairwise reqs c0 [] h
      (fun id hid => absurd hid (List.not_mem_nil id)) List.Pairwise.nil
    simpa using hall
  · intro t mc
    obtain ⟨-, n, hnc, hself, hne, -⟩ := alloc_spec t mc c0 h
    exact ⟨n, hnc, hself, hne⟩

/-- Witness for C9: empty counters and the concrete request sequence of
scenario A. -/
theorem alloc_sequence_ids_distinct_witness :
    WFCounters emptyCounters ∧
    ((allocList emptyCounters [("PLA", "Galaxy Black"), ("PETG", "Galaxy Black"),
        ("PLA", "Arctic White")]).1.Pairwise (· ≠ ·) ∧
     ∀ t mc : String, ∃ n : ℕ,
      nextSpoolOf emptyCounters (normalizeType t) = some n ∧
      nextSpoolOf (generateNewIdAndUpdateCounters t mc emptyCounters).2 (normalizeType t)
        = some (n + 1) ∧
      ∀ T, T ≠ normalizeType t →
        nextSpoolOf (generateNewIdAndUpdateCounters t mc emptyCounters).2 T
          = nextSpoolOf emptyCounters T) :=
  ⟨by decide, alloc_sequence_ids_distinct emptyCounters
    [("PLA", "Galaxy Black"), ("PETG", "Galaxy Black"), ("PLA", "Arctic White")]
    (by decide)⟩
